/-
Verification of the DEVONzot attachment-reconciliation engine.

Shallow embedding of the core of the repository:
  * `AttachmentPair` and the confirm / rollback operations of
    `DEVONzotAddNewService` (src/src/devonzot_add_new.py),
  * the atomic save / resilient load of `SafeStateManager`
    (src/devonzot_safe_api.py),
  * the search-term extraction of `DEVONthinkAPIInterface`,
  * the retry/backoff request loops of both API clients,
  * the batched `add_uuid_attachments` workflow.

Side effects (API calls, file writes) are modelled by explicit environments
and event traces so that ordering properties can be stated and decided.
-/
import Mathlib

set_option autoImplicit false

namespace Devonzot

/-- Embedding of the `AttachmentPair` dataclass (devonzot_add_new.py, lines
42-55).  `new_key` is `Optional[str]`; all other fields are strings except the
two completion flags. -/
structure AttachmentPair where
  old_key : String
  old_title : String
  old_path : String
  new_key : Option String
  new_url : String
  parent_key : String
  parent_title : String
  uuid : String
  timestamp : String
  confirmed : Bool
  old_deleted : Bool
  deriving DecidableEq, Repr

/-! ### Confirm operation (`DEVONzotAddNewService.confirm_and_cleanup`) -/

/-- External world seen by `confirm_and_cleanup`: `getItem` models
`ZoteroAPIClient.get_item` (key ↦ current version, `none` when the item can no
longer be fetched), `deleteOk` models whether `delete_attachment` succeeds for
a key, and `verifyNew` models an oracle/record-store verification capability
for the new reference — available to the environment, so the trace can show
whether the code ever consults it. -/
structure ConfirmEnv where
  getItem : String → Option Nat
  deleteOk : String → Bool
  verifyNew : String → Bool

/-- Operations `confirm_and_cleanup` can issue against the outside world. -/
inductive COp where
  | getOld (key : String)
  | deleteOld (key : String)
  | verifyNewRef (key : String)
  deriving DecidableEq, Repr

structure ConfirmCounts where
  confirmed : Nat
  deleted : Nat
  error : Nat
  deriving DecidableEq, Repr

def ConfirmCounts.add (a b : ConfirmCounts) : ConfirmCounts :=
  ⟨a.confirmed + b.confirmed, a.deleted + b.deleted, a.error + b.error⟩

/-- Update of one unconfirmed pair by `confirm_and_cleanup` (lines 438-457):
fetch the old item; when it is fetchable and not yet deleted, delete it — on
success set `old_deleted` and fall through to `confirmed := true`, on failure
leave the pair untouched (`continue`); when the old item is unfetchable or
already deleted, mark the pair confirmed directly. -/
def confirmStep (env : ConfirmEnv) (p : AttachmentPair) : AttachmentPair :=
  match env.getItem p.old_key with
  | some _ =>
    if !p.old_deleted then
      if env.deleteOk p.old_key then
        { p with old_deleted := true, confirmed := true }
      else
        p
    else
      { p with confirmed := true }
  | none => { p with confirmed := true }

/-- External calls issued while processing one unconfirmed pair. -/
def confirmStepOps (env : ConfirmEnv) (p : AttachmentPair) : List COp :=
  COp.getOld p.old_key ::
    (match env.getItem p.old_key with
     | some _ => if !p.old_deleted then [COp.deleteOld p.old_key] else []
     | none => [])

/-- Counter updates while processing one unconfirmed pair. -/
def confirmStepCounts (env : ConfirmEnv) (p : AttachmentPair) : ConfirmCounts :=
  match env.getItem p.old_key with
  | some _ =>
    if !p.old_deleted then
      if env.deleteOk p.old_key then ⟨1, 1, 0⟩ else ⟨0, 0, 1⟩
    else ⟨1, 0, 0⟩
  | none => ⟨1, 0, 0⟩

/-- Embedding of `confirm_and_cleanup` (lines 432-464): iterate over the
unconfirmed pairs (already-confirmed pairs pass through untouched), returning
the final pair list, the result counters and the trace of external calls.
`save_attachment_pairs` is invoked once at the end, so the returned list is
also the persisted one. -/
def confirm_and_cleanup (env : ConfirmEnv) :
    List AttachmentPair → List AttachmentPair × ConfirmCounts × List COp
  | [] => ([], ⟨0, 0, 0⟩, [])
  | p :: rest =>
    let (ps, c, ops) := confirm_and_cleanup env rest
    if p.confirmed then (p :: ps, c, ops)
    else
      (confirmStep env p :: ps, (confirmStepCounts env p).add c,
        confirmStepOps env p ++ ops)

/-- Does a trace contain any verification call for a new reference? -/
def hasVerifyOp : List COp → Bool
  | [] => false
  | COp.verifyNewRef _ :: _ => true
  | _ :: rest => hasVerifyOp rest

/-! ### Rollback operation (`DEVONzotAddNewService.rollback_uuid_attachments`) -/

structure RbEnv where
  getItem : String → Option Nat
  deleteOk : String → Bool

inductive RbOp where
  | get (key : String)
  | del (key : String)
  deriving DecidableEq, Repr

structure RbCounts where
  rolled_back : Nat
  error : Nat
  deriving DecidableEq, Repr

def RbCounts.add (a b : RbCounts) : RbCounts :=
  ⟨a.rolled_back + b.rolled_back, a.error + b.error⟩

/-- External calls issued for one pair by `rollback_uuid_attachments` (lines
470-487): only pairs with a truthy (non-empty) `new_key` and `confirmed =
false` are touched; the new attachment is fetched and, if fetchable,
deleted.  No call ever targets `old_key`. -/
def rollbackStepOps (env : RbEnv) (p : AttachmentPair) : List RbOp :=
  match p.new_key with
  | some k =>
    if k ≠ "" && !p.confirmed then
      RbOp.get k ::
        (match env.getItem k with
         | some _ => [RbOp.del k]
         | none => [])
    else []
  | none => []

def rollbackStepCounts (env : RbEnv) (p : AttachmentPair) : RbCounts :=
  match p.new_key with
  | some k =>
    if k ≠ "" && !p.confirmed then
      match env.getItem k with
      | some _ => if env.deleteOk k then ⟨1, 0⟩ else ⟨0, 1⟩
      | none => ⟨0, 0⟩
    else ⟨0, 0⟩
  | none => ⟨0, 0⟩

/-- Embedding of `rollback_uuid_attachments` (lines 466-493): attempt to
delete every unconfirmed pair's new attachment, then unconditionally drop all
unconfirmed pairs from the store (`attachment_pairs = [p for p in ... if
p.confirmed]`) and persist.  Returns (persisted store, counters, trace). -/
def rollback_uuid_attachments (env : RbEnv) (pairs : List AttachmentPair) :
    List AttachmentPair × RbCounts × List RbOp :=
  (pairs.filter (fun p => p.confirmed),
   (pairs.map (rollbackStepCounts env)).foldr RbCounts.add ⟨0, 0⟩,
   (pairs.map (rollbackStepOps env)).flatten)

/-- Keys whose deletion was attempted and succeeded, for a given trace. -/
def succDeleted (env : RbEnv) : List RbOp → List String
  | [] => []
  | RbOp.del k :: rest =>
    if env.deleteOk k then k :: succDeleted env rest else succDeleted env rest
  | RbOp.get _ :: rest => succDeleted env rest

/-! ### Pairing State Store (`SafeStateManager`, devonzot_safe_api.py)

The filesystem is modelled at the granularity the store observes: the
canonical file holds either a parseable pair list (`some (some ps)`), corrupt
content (`some none`), or is missing (`none`); the backup directory holds
named files with the same content alternatives.  Backup file names are
`attachment_pairs_YYYYMMDD_HHMMSS.json`, a fixed-width format, so Python's
filename sort coincides with sorting timestamps numerically; names are
therefore modelled as `Nat`. -/

structure StoreFS where
  canonical : Option (Option (List AttachmentPair))
  backups : List (Nat × Option (List AttachmentPair))
  deriving DecidableEq, Repr

/-- `sorted(..., reverse=True)`: backups ordered newest (largest name) first. -/
def sortBackupsDesc (bs : List (Nat × Option (List AttachmentPair))) :
    List (Nat × Option (List AttachmentPair)) :=
  bs.insertionSort (fun a b => b.1 ≤ a.1)

/-- `BACKUP_COUNT = 5` (devonzot_safe_api.py line 28). -/
def BACKUP_COUNT : Nat := 5

/-- `_cleanup_backups` (lines 149-156): keep only the `BACKUP_COUNT` newest
backup files, deleting the rest. -/
def cleanup_backups (bs : List (Nat × Option (List AttachmentPair))) :
    List (Nat × Option (List AttachmentPair)) :=
  (sortBackupsDesc bs).take BACKUP_COUNT

/-- Filesystem steps performed by `save_state`, in order. -/
inductive SaveEv where
  | writeTemp (content : List AttachmentPair)
  | copyBackup (name : Nat)
  | renameTempOverCanonical
  | prune
  deriving DecidableEq, Repr

/-- Embedding of `SafeStateManager.save_state` (lines 100-147): serialize the
pair list into a temporary file, copy the current canonical file (when
present) to a timestamped backup, atomically rename the temporary file over
the canonical path, then prune old backups.  `ts` is the timestamp used for
the backup name. -/
def save_state (fs : StoreFS) (pairs : List AttachmentPair) (ts : Nat) :
    StoreFS × List SaveEv :=
  let backups' :=
    match fs.canonical with
    | some c => (ts, c) :: fs.backups
    | none => fs.backups
  ({ canonical := some (some pairs), backups := cleanup_backups backups' },
   [SaveEv.writeTemp pairs] ++
     (match fs.canonical with
      | some _ => [SaveEv.copyBackup ts]
      | none => []) ++
     [SaveEv.renameTempOverCanonical, SaveEv.prune])

/-- First parseable content among a list of backup contents, else the empty
initial state. -/
def firstReadable : List (Option (List AttachmentPair)) → List AttachmentPair
  | [] => []
  | some ps :: _ => ps
  | none :: rest => firstReadable rest

/-- Embedding of `SafeStateManager.load_state` (lines 73-98): return the
canonical file's list when present and parseable; otherwise try the 3 newest
backups in order, returning the first that parses; otherwise start fresh. -/
def load_state (fs : StoreFS) : List AttachmentPair :=
  match fs.canonical with
  | some (some ps) => ps
  | _ => firstReadable (((sortBackupsDesc fs.backups).take 3).map (fun b => b.2))

/-- The canonical state file is missing or fails to parse. -/
def canonicalBad (fs : StoreFS) : Prop :=
  fs.canonical = none ∨ fs.canonical = some none

/-! ### Match-oracle adapter (`DEVONthinkAPIInterface`, devonzot_add_new.py)

`_extract_search_terms` (lines 232-253) is built from three regular
expressions; they are embedded here as character-level scanners over
`List Char`.  The Python regexes use only ASCII classes (`[A-Z]`, `[a-z]`),
and `\b`/`\s`/`\w` are modelled by their ASCII meaning. -/

def isUpperAZ (c : Char) : Bool := 'A' ≤ c && c ≤ 'Z'

def isLowerAZ (c : Char) : Bool := 'a' ≤ c && c ≤ 'z'

def isDigitCh (c : Char) : Bool := '0' ≤ c && c ≤ '9'

/-- `\w`: word character. -/
def isWordCh (c : Char) : Bool := isUpperAZ c || isLowerAZ c || isDigitCh c || c = '_'

/-- `\s`: whitespace. -/
def isSpaceCh (c : Char) : Bool :=
  c = ' ' || c = '\t' || c = '\n' || c = '\x0d' || c = '\x0b' || c = '\x0c'

/-- Suffixes matched by `\.(pdf|docx?|txt|html?)$` (all lowercase; compared
case-insensitively).  `.docx` is listed before `.doc` and `.html` before
`.htm` so the longer alternative wins, as in the regex. -/
def EXT_SUFFIXES : List (List Char) :=
  [".pdf".data, ".docx".data, ".doc".data, ".txt".data, ".html".data, ".htm".data]

/-- `re.sub(r'\.(pdf|docx?|txt|html?)$', '', title, flags=re.IGNORECASE)`. -/
def stripExt (l : List Char) : List Char :=
  match EXT_SUFFIXES.find? (fun suf => suf.isSuffixOf (l.map Char.toLower)) with
  | some suf => l.take (l.length - suf.length)
  | none => l

/-- The optional `\s+et\s+al` tail of the author regex: returns the matched
characters when the input starts with whitespace, `et`, whitespace, `al`. -/
def etAlSuffix (l : List Char) : Option (List Char) :=
  let sp1 := l.takeWhile isSpaceCh
  if sp1.isEmpty then none
  else
    match l.drop sp1.length with
    | 'e' :: 't' :: r2 =>
      let sp2 := r2.takeWhile isSpaceCh
      if sp2.isEmpty then none
      else
        match r2.drop sp2.length with
        | 'a' :: 'l' :: _ => some (sp1 ++ 'e' :: 't' :: sp2 ++ ['a', 'l'])
        | _ => none
    | _ => none

/-- `re.match(r'^([A-Z][a-z]+(?:\s+et\s+al)?)', clean_title)`: a leading
capital letter, a maximal non-empty run of lowercase letters, optionally
followed by ` et al`. -/
def authorMatch (l : List Char) : Option (List Char) :=
  match l with
  | [] => none
  | c :: rest =>
    if isUpperAZ c then
      let low := rest.takeWhile isLowerAZ
      if low.isEmpty then none
      else
        match etAlSuffix (rest.drop low.length) with
        | some ext => some (c :: low ++ ext)
        | none => some (c :: low)
    else none

/-- Is the head of the remaining input a word character?  (Used for the
closing `\b` of the capitalized-word regex.) -/
def headIsWord : List Char → Bool
  | [] => false
  | d :: _ => isWordCh d

/-- Scanner for `re.findall(r'\b[A-Z][a-z]{3,}\b', clean_title)`:
left-to-right, non-overlapping matches of a capital letter at a word
boundary followed by a maximal run of at least 3 lowercase letters ending at
a word boundary.  The Bool argument records whether the previous character
was a word character (no `\b` there).  Every step consumes at least one
character, so a fuel of the input length makes the recursion structural. -/
def findCapWordsGo : Nat → List Char → Bool → List (List Char)
  | 0, _, _ => []
  | _ + 1, [], _ => []
  | fuel + 1, c :: rest, prevW =>
    if !prevW && isUpperAZ c then
      if 3 ≤ (rest.takeWhile isLowerAZ).length
          && !headIsWord (rest.drop (rest.takeWhile isLowerAZ).length) then
        (c :: rest.takeWhile isLowerAZ) ::
          findCapWordsGo fuel (rest.drop (rest.takeWhile isLowerAZ).length) true
      else
        findCapWordsGo fuel rest (isWordCh c)
    else
      findCapWordsGo fuel rest (isWordCh c)

def findCapWords (l : List Char) (prevW : Bool) : List (List Char) :=
  findCapWordsGo l.length l prevW

/-- Python's `str.split()`: whitespace-separated words, empty words dropped.
Fueled like `findCapWordsGo`. -/
def splitWSGo : Nat → List Char → List (List Char)
  | 0, _ => []
  | _ + 1, [] => []
  | fuel + 1, c :: rest =>
    if isSpaceCh c then splitWSGo fuel rest
    else
      (c :: rest.takeWhile (fun d => !isSpaceCh d)) ::
        splitWSGo fuel (rest.drop (rest.takeWhile (fun d => !isSpaceCh d)).length)

def splitWS (l : List Char) : List (List Char) :=
  splitWSGo l.length l

/-- `stop_words` (devonzot_add_new.py line 244). -/
def STOP_WORDS : List String :=
  ["Journal", "Article", "Document", "Report", "History", "Review", "Magazine", "Book"]

/-- Embedding of `DEVONthinkAPIInterface._extract_search_terms` (lines
232-253): strip a trailing extension; take the leading author match; add up
to 3 capitalized words of length > 4 outside the stop-word set; if nothing
was found, fall back to the first two whitespace-split words of length > 3;
return at most 4 terms. -/
def extract_search_terms (title : String) : List String :=
  let ct := stripExt title.data
  let author :=
    match authorMatch ct with
    | some a => [String.mk a]
    | none => []
  let words := (findCapWords ct false).map String.mk
  let meaningful :=
    (words.filter (fun w => !STOP_WORDS.contains w && 4 < w.length)).take 3
  let terms := author ++ meaningful
  let terms' :=
    if terms.isEmpty then
      (((splitWS ct).map String.mk).take 2).filter (fun w => 3 < w.length)
    else terms
  terms'.take 4

/-- First non-empty oracle answer over a term list. -/
def firstHit (oracle : String → String) : List String → Option String
  | [] => none
  | t :: ts => if oracle t ≠ "" then some (oracle t) else firstHit oracle ts

/-- Embedding of `DEVONthinkAPIInterface.search_for_item_async` (lines
190-230): query the oracle with each derived term in order and return the
first non-empty identifier; `none` when every term comes back empty.  The
oracle returns `""` for "no result" exactly as the AppleScript bridge does. -/
def search_for_item (oracle : String → String) (title : String) : Option String :=
  firstHit oracle (extract_search_terms title)

/-! ### Rate-limited, retrying request loops

Two client variants exist in the source; both are embedded.

`ZoteroAPIClient._safe_request` (src/src/devonzot_add_new.py, lines 133-167):
up to `max_retries = 5` attempts; an exception sleeps the current delay and
retries; a `Backoff` header is honoured on any response; a 429/503 response
sleeps the `Retry-After` header when present, otherwise sleeps the current
delay and doubles it capped at 60, and retries; any other response is
returned; exhausting the attempts returns `None`.

`SafeZoteroAPIClient._safe_request` (src/devonzot_safe_api.py, lines
171-184): `MAX_RETRIES = 3` attempts, each preceded by a
`time.sleep(RATE_LIMIT_DELAY)` throttle; only exceptions are retried, with
`2 ** attempt` backoff between attempts; exhaustion returns `None`.

Delays are in whole seconds (`RATE_LIMIT_DELAY` defaults to 1.0), so they are
modelled as `Nat`. -/

/-- Outcome of one attempted HTTP request: a raised exception, or a response
with a status code, an optional `Backoff` header and an optional
`Retry-After` header. -/
inductive ReqOutcome where
  | exc
  | resp (status : Nat) (backoff : Option Nat) (retryAfter : Option Nat)
  deriving DecidableEq, Repr

/-- Default `RATE_LIMIT_DELAY` (1 second). -/
def RATE_LIMIT_DELAY : Nat := 1

/-- Attempt loop of `ZoteroAPIClient._safe_request`, over a script of request
outcomes (one per attempt, first element first).  Returns the list of sleeps
performed, in order, together with the returned response status (`none` =
terminal failure). -/
def safeRequestAddNewGo : List ReqOutcome → Nat → List Nat × Option Nat
  | [], _ => ([], none)
  | ReqOutcome.exc :: rest, delay =>
    let (s, r) := safeRequestAddNewGo rest delay
    (delay :: s, r)
  | ReqOutcome.resp st bo ra :: rest, delay =>
    let boSleeps := match bo with | some b => [b] | none => []
    if st = 429 || st = 503 then
      match ra with
      | some t =>
        let (s, r) := safeRequestAddNewGo rest delay
        (boSleeps ++ t :: s, r)
      | none =>
        let (s, r) := safeRequestAddNewGo rest (min (delay * 2) 60)
        (boSleeps ++ delay :: s, r)
    else
      (boSleeps, some st)

/-- `ZoteroAPIClient._safe_request`: at most `max_retries = 5` attempts,
starting from `RATE_LIMIT_DELAY`. -/
def safeRequestAddNew (script : List ReqOutcome) : List Nat × Option Nat :=
  safeRequestAddNewGo (script.take 5) RATE_LIMIT_DELAY

/-- An attempt outcome that makes `ZoteroAPIClient._safe_request` retry
rather than return: an exception or a rate-limited (429/503) response. -/
def retriable : ReqOutcome → Bool
  | ReqOutcome.exc => true
  | ReqOutcome.resp st _ _ => st = 429 || st = 503

/-- Outcome of one attempt for the simpler safe-API variant. -/
inductive SOutcome where
  | exc
  | resp (status : Nat)
  deriving DecidableEq, Repr

/-- Observable events of `SafeZoteroAPIClient._safe_request`. -/
inductive SEvent where
  | sleep (seconds : Nat)
  | request (attempt : Nat)
  deriving DecidableEq, Repr

/-- `MAX_RETRIES = 3` (devonzot_safe_api.py line 27). -/
def MAX_RETRIES : Nat := 3

/-- Attempt loop of `SafeZoteroAPIClient._safe_request`: each attempt sleeps
the throttle interval, then issues the request; an exception backs off
`2 ^ attempt` seconds when attempts remain.  `fuel` counts remaining loop
iterations. -/
def safeRequestSafeGo (script : Nat → SOutcome) (attempt fuel : Nat) :
    List SEvent × Option Nat :=
  match fuel with
  | 0 => ([], none)
  | f + 1 =>
    match script attempt with
    | SOutcome.resp st =>
      ([SEvent.sleep RATE_LIMIT_DELAY, SEvent.request attempt], some st)
    | SOutcome.exc =>
      if attempt < MAX_RETRIES - 1 then
        let (es, r) := safeRequestSafeGo script (attempt + 1) f
        ([SEvent.sleep RATE_LIMIT_DELAY, SEvent.request attempt,
          SEvent.sleep (2 ^ attempt)] ++ es, r)
      else
        ([SEvent.sleep RATE_LIMIT_DELAY, SEvent.request attempt], none)

/-- `SafeZoteroAPIClient._safe_request` over a script of outcomes indexed by
attempt number. -/
def safeRequestSafe (script : Nat → SOutcome) : List SEvent × Option Nat :=
  safeRequestSafeGo script 0 MAX_RETRIES

/-- Every `request` event is immediately preceded by a throttle sleep of
`RATE_LIMIT_DELAY` seconds.  The second argument is the previous event. -/
def throttled : List SEvent → Option SEvent → Bool
  | [], _ => true
  | e :: rest, prev =>
    (match e with
     | SEvent.request _ => prev = some (SEvent.sleep RATE_LIMIT_DELAY)
     | _ => true) && throttled rest (some e)

/-! ### Batched creation workflow (`DEVONzotAddNewService.add_uuid_attachments`)

Embedding of devonzot_add_new.py lines 305-395.  The run is split into its
three phases exactly as in the source: candidate discovery and filtering,
the DEVONthink search loop that builds `batch_to_create` and `candidate_map`,
and the result-processing loop that appends pairs and deletes old
attachments.  `save_attachment_pairs` is called once, at the end. -/

/-- The fields of one attachment item read from the Zotero API response
(`item_data['data']`). -/
structure Item where
  key : String
  version : Nat
  title : String
  path : String
  parentItem : String
  linkMode : String
  deriving DecidableEq, Repr

/-- One entry of `batch_to_create`. -/
structure BatchEntry where
  parent_key : String
  title : String
  url : String
  deriving DecidableEq, Repr

/-- External world of `add_uuid_attachments`: the attachment batch returned
by `get_attachment_batch`, the DEVONthink search oracle, the per-index result
of the batched create call (`none` = creation failed for that index),
`get_item` (key ↦ (title, version)), deletion success, and the clock. -/
structure AddEnv where
  items : List Item
  oracle : String → Option String
  createKey : Nat → Option String
  getItem : String → Option (String × Nat)
  deleteOk : String → Bool
  now : String

/-- Observable events of one `add_uuid_attachments` run. -/
inductive AEv where
  | append (p : AttachmentPair)
  | deleteOld (key : String)
  | save (store : List AttachmentPair)
  deriving DecidableEq, Repr

/-- Candidate filter (lines 313-324): keep linked-file attachments with a
non-empty path and a parent, whose key is not the `old_key` of any pairing
already in the store. -/
def addUuidCandidates (store : List AttachmentPair) (items : List Item) : List Item :=
  items.filter (fun it =>
    it.linkMode = "linked_file" && it.path ≠ "" && it.parentItem ≠ "" &&
      store.all (fun p => p.old_key != it.key))

/-- Search loop (lines 327-345): query the oracle for each candidate in
order; hits contribute a batch entry and a `candidate_map` assignment (last
assignment wins on duplicate titles), misses increment the skip counter. -/
def searchPhase (oracle : String → Option String) :
    List Item → List BatchEntry × List (String × Item × String) × Nat
  | [] => ([], [], 0)
  | c :: rest =>
    let (b, m, sk) := searchPhase oracle rest
    match oracle c.title with
    | some uuid =>
      (⟨c.parentItem, c.title, "x-devonthink-item://" ++ uuid⟩ :: b,
        (c.title, c, uuid) :: m, sk)
    | none => (b, m, sk + 1)

/-- Python `dict` lookup where the dict was filled by repeated assignment:
the last assignment for a key wins. -/
def lookupLast {α : Type} (m : List (String × α)) (k : String) : Option α :=
  (m.reverse.find? (fun e => e.1 = k)).map (fun e => e.2)

/-- Pair each batch entry with the create-result key for its index
(`create_url_attachments`, lines 104-131). -/
def attachKeys (createKey : Nat → Option String) :
    Nat → List BatchEntry → List (BatchEntry × Option String)
  | _, [] => []
  | i, b :: bs => (b, createKey i) :: attachKeys createKey (i + 1) bs

/-- Result-processing loop (lines 350-384): for each create result, look its
title up in `candidate_map`; when the new key is truthy (non-empty) and the
candidate is present, build the pair (with the parent title fetched via
`get_item`), append it, then immediately fetch and delete the old file
attachment, setting `old_deleted` on success.  Otherwise count an error.
Returns (pairs appended in order, added, error, events). -/
def processResults (env : AddEnv) (cmap : List (String × Item × String)) :
    List (BatchEntry × Option String) →
      List AttachmentPair × Nat × Nat × List AEv
  | [] => ([], 0, 0, [])
  | (att, nk) :: rest =>
    let (ps, a, e, evs) := processResults env cmap rest
    match lookupLast cmap att.title, nk with
    | some (cand, uuid), some newKey =>
      if newKey ≠ "" then
        let parentTitle :=
          match env.getItem cand.parentItem with
          | some (t, _) => t
          | none => "Unknown"
        let p0 : AttachmentPair :=
          { old_key := cand.key, old_title := cand.title, old_path := cand.path,
            new_key := some newKey, new_url := att.url,
            parent_key := cand.parentItem, parent_title := parentTitle,
            uuid := uuid, timestamp := env.now,
            confirmed := false, old_deleted := false }
        let fetched := (env.getItem cand.key).isSome
        let pF := { p0 with old_deleted := fetched && env.deleteOk cand.key }
        (pF :: ps, a + 1, e,
          (AEv.append p0 :: if fetched then [AEv.deleteOld cand.key] else []) ++ evs)
      else (ps, a, e + 1, evs)
    | _, _ => (ps, a, e + 1, evs)

structure AddCounts where
  added : Nat
  error : Nat
  skipped : Nat
  deriving DecidableEq, Repr

/-- Embedding of `add_uuid_attachments` (lines 305-395). -/
def add_uuid_attachments (env : AddEnv) (store : List AttachmentPair)
    (maxItems : Nat) : List AttachmentPair × AddCounts × List AEv :=
  let cands := (addUuidCandidates store env.items).take maxItems
  let (batch, cmap, skipped) := searchPhase env.oracle cands
  let (news, added, err, evs) :=
    processResults env cmap (attachKeys env.createKey 0 batch)
  let final := store ++ news
  (final, ⟨added, err, skipped⟩, evs ++ [AEv.save final])

/-- Trace prefix up to and including the `n`-th `append` event (1-indexed). -/
def prefixThroughAppend : Nat → List AEv → List AEv
  | _, [] => []
  | n, e :: rest =>
    match e with
    | AEv.append _ => if n ≤ 1 then [e] else e :: prefixThroughAppend (n - 1) rest
    | _ => e :: prefixThroughAppend n rest

/-- Content of the persisted store after a trace: the payload of the last
`save` event, or the initial persisted content when none occurred. -/
def persistedIn (init : List AttachmentPair) : List AEv → List AttachmentPair
  | [] => init
  | AEv.save s :: rest => persistedIn s rest
  | _ :: rest => persistedIn init rest

def countAppends : List AEv → Nat
  | [] => 0
  | AEv.append _ :: rest => countAppends rest + 1
  | _ :: rest => countAppends rest

/-- The payloads of the `save` events of a trace, in order. -/
def savesOf : List AEv → List (List AttachmentPair)
  | [] => []
  | AEv.save s :: rest => s :: savesOf rest
  | _ :: rest => savesOf rest

/-! ## Helper lemmas -/

/-- The key an operation of the rollback trace targets. -/
def rbKey : RbOp → String
  | RbOp.get k => k
  | RbOp.del k => k

theorem mem_succDeleted_deleteOk {env : RbEnv} {k : String} :
    ∀ {ops : List RbOp}, k ∈ succDeleted env ops → env.deleteOk k = true := by
  intro ops
  induction ops with
  | nil => intro h; simp [succDeleted] at h
  | cons o rest ih =>
    intro h
    match o with
    | RbOp.get k' => exact ih h
    | RbOp.del k' =>
      by_cases hd : env.deleteOk k' = true
      · simp [succDeleted, hd] at h
        rcases h with h | h
        · exact h ▸ hd
        · exact ih h
      · simp [succDeleted, Bool.not_eq_true] at hd
        simp [succDeleted, hd] at h
        exact ih h

theorem rollbackStepOps_target {env : RbEnv} {p : AttachmentPair} {op : RbOp}
    (h : op ∈ rollbackStepOps env p) :
    p.confirmed = false ∧ p.new_key = some (rbKey op) := by
  unfold rollbackStepOps at h
  split at h
  · rename_i k hk
    split at h
    · rename_i hc
      have hconf : p.confirmed = false := by
        rcases (Bool.and_eq_true _ _).mp hc with ⟨_, h2⟩
        simpa using h2
      rcases List.mem_cons.mp h with h | h
      · subst h; exact ⟨hconf, by rw [hk]; rfl⟩
      · split at h
        · have h' := List.mem_singleton.mp h
          subst h'; exact ⟨hconf, by rw [hk]; rfl⟩
        · simp at h
    · simp at h
  · simp at h

theorem rollback_ops_source {env : RbEnv} {pairs : List AttachmentPair} {op : RbOp}
    (h : op ∈ (rollback_uuid_attachments env pairs).2.2) :
    ∃ p ∈ pairs, op ∈ rollbackStepOps env p := by
  unfold rollback_uuid_attachments at h
  simp only [List.mem_flatten, List.mem_map] at h
  rcases h with ⟨l, ⟨p, hp, hl⟩, hop⟩
  exact ⟨p, hp, hl ▸ hop⟩

/-! ## C9 — rollback persists exactly the confirmed pairings -/

/-- C9: after `rollback_uuid_attachments`, the persisted pairing list is
exactly the sublist of pairs with `confirmed = true`; every unconfirmed pair
is dropped, and when the deletion of an unconfirmed pair's new reference
fails, that reference is not among the successfully deleted keys yet its
pairing is gone from the store — the new reference becomes untracked. -/
theorem rollback_keeps_only_confirmed (env : RbEnv) (pairs : List AttachmentPair) :
    (rollback_uuid_attachments env pairs).1 = pairs.filter (fun p => p.confirmed) ∧
    (∀ p ∈ pairs, p.confirmed = false → p ∉ (rollback_uuid_attachments env pairs).1) ∧
    (∀ p ∈ pairs, ∀ k, p.new_key = some k → p.confirmed = false →
      env.deleteOk k = false →
      k ∉ succDeleted env (rollback_uuid_attachments env pairs).2.2 ∧
      p ∉ (rollback_uuid_attachments env pairs).1) := by
  refine ⟨rfl, ?_, ?_⟩
  · intro p _ hconf hmem
    have := List.of_mem_filter hmem
    simp [hconf] at this
  · intro p hp k _ hconf hdel
    constructor
    · intro hmem
      have := mem_succDeleted_deleteOk hmem
      rw [hdel] at this
      exact Bool.false_ne_true this
    · intro hmem
      have := List.of_mem_filter hmem
      simp [hconf] at this

/-- Witness for C9 at a concrete input: one unconfirmed pair whose new
reference cannot be deleted; after rollback the store is empty and the new
key was never successfully deleted. -/
theorem rollback_keeps_only_confirmed_witness :
    (rollback_uuid_attachments ⟨fun _ => some 1, fun _ => false⟩
        [⟨"A1", "t", "/p", some "N1", "u", "P1", "PT", "u9", "T", false, false⟩]).1 = [] ∧
    "N1" ∉ succDeleted ⟨fun _ => some 1, fun _ => false⟩
        (rollback_uuid_attachments ⟨fun _ => some 1, fun _ => false⟩
          [⟨"A1", "t", "/p", some "N1", "u", "P1", "PT", "u9", "T", false, false⟩]).2.2 := by
  have h := rollback_keeps_only_confirmed ⟨fun _ => some 1, fun _ => false⟩
    [⟨"A1", "t", "/p", some "N1", "u", "P1", "PT", "u9", "T", false, false⟩]
  have h3 := h.2.2 ⟨"A1", "t", "/p", some "N1", "u", "P1", "PT", "u9", "T", false, false⟩
    (by simp) "N1" rfl rfl rfl
  exact ⟨h.1, h3.1⟩

/-! ## C4 — rollback frame: only new references are touched -/

/-- C4: every external call issued by `rollback_uuid_attachments` targets the
`new_key` of some unconfirmed pairing; provided no pairing's new key
coincides with a pairing's old key, no call ever targets an old reference;
and every unconfirmed pairing leaves the store, so a file attachment bearing
its `old_key` passes the discovery filter again. -/
theorem rollback_frame_and_eligibility (env : RbEnv) (pairs : List AttachmentPair) :
    (∀ op ∈ (rollback_uuid_attachments env pairs).2.2,
      ∃ p ∈ pairs, p.confirmed = false ∧ p.new_key = some (rbKey op)) ∧
    (∀ p ∈ pairs, (∀ q ∈ pairs, q.new_key ≠ some p.old_key) →
      ∀ op ∈ (rollback_uuid_attachments env pairs).2.2, rbKey op ≠ p.old_key) ∧
    (∀ p ∈ pairs, p.confirmed = false →
      p ∉ (rollback_uuid_attachments env pairs).1 ∧
      ((∀ q ∈ pairs, q.confirmed = true → q.old_key ≠ p.old_key) →
        ∀ it : Item, it.key = p.old_key → it.linkMode = "linked_file" →
          it.path ≠ "" → it.parentItem ≠ "" →
          it ∈ addUuidCandidates (rollback_uuid_attachments env pairs).1 [it])) := by
  refine ⟨?_, ?_, ?_⟩
  · intro op hop
    rcases rollback_ops_source hop with ⟨p, hp, hstep⟩
    rcases rollbackStepOps_target hstep with ⟨hconf, hkey⟩
    exact ⟨p, hp, hconf, hkey⟩
  · intro p _ hfresh op hop heq
    rcases rollback_ops_source hop with ⟨q, hq, hstep⟩
    rcases rollbackStepOps_target hstep with ⟨_, hkey⟩
    exact hfresh q hq (heq ▸ hkey)
  · intro p hp hconf
    constructor
    · intro hmem
      have := List.of_mem_filter hmem
      simp [hconf] at this
    · intro hold it hkey hmode hpath hparent
      have hall : ∀ q ∈ (rollback_uuid_attachments env pairs).1, q.old_key ≠ it.key := by
        intro q hq
        have hqc : q.confirmed = true := by
          have := List.of_mem_filter hq
          simpa using this
        have hqp : q ∈ pairs := List.mem_of_mem_filter hq
        rw [hkey]
        exact hold q hqp hqc
      unfold addUuidCandidates
      rw [List.mem_filter]
      refine ⟨List.mem_singleton_self it, ?_⟩
      simp only [Bool.and_eq_true, decide_eq_true_eq, List.all_eq_true]
      refine ⟨⟨⟨hmode, hpath⟩, hparent⟩, ?_⟩
      intro q hq
      simpa using hall q hq

/-- Witness for C4 at a concrete input: a single unconfirmed pair; rollback
never touches old key `"A1"`, and an attachment item with key `"A1"` is
discoverable again afterwards. -/
theorem rollback_frame_and_eligibility_witness :
    (∀ op ∈ (rollback_uuid_attachments ⟨fun _ => some 1, fun _ => true⟩
        [⟨"A1", "t", "/p", some "N1", "u", "P1", "PT", "u9", "T", false, false⟩]).2.2,
      rbKey op ≠ "A1") ∧
    (⟨"A1", 1, "t", "/p", "P1", "linked_file"⟩ : Item) ∈
      addUuidCandidates (rollback_uuid_attachments ⟨fun _ => some 1, fun _ => true⟩
        [⟨"A1", "t", "/p", some "N1", "u", "P1", "PT", "u9", "T", false, false⟩]).1
        [⟨"A1", 1, "t", "/p", "P1", "linked_file"⟩] := by
  have h := rollback_frame_and_eligibility ⟨fun _ => some 1, fun _ => true⟩
    [⟨"A1", "t", "/p", some "N1", "u", "P1", "PT", "u9", "T", false, false⟩]
  have hp : (⟨"A1", "t", "/p", some "N1", "u", "P1", "PT", "u9", "T", false, false⟩ :
      AttachmentPair) ∈
      [(⟨"A1", "t", "/p", some "N1", "u", "P1", "PT", "u9", "T", false, false⟩ :
      AttachmentPair)] := by simp
  refine ⟨fun op hop => h.2.1 _ hp (by decide) op hop, ?_⟩
  exact ((h.2.2 _ hp rfl).2 (by decide) _ rfl rfl (by decide) (by decide))

/-! ## C10 — confirm succeeds even when the old reference is gone -/

/-- C10: when `get_item` can no longer fetch the old reference,
`confirm_and_cleanup` still marks the pairing `confirmed = true` and counts
it as confirmed, leaving `old_deleted` unchanged; so a pairing can end
confirmed with `old_deleted = false`. -/
theorem confirm_marks_confirmed_when_old_missing (env : ConfirmEnv)
    (p : AttachmentPair) (h1 : p.confirmed = false)
    (h2 : env.getItem p.old_key = none) :
    (confirmStep env p).confirmed = true ∧
    (confirmStep env p).old_deleted = p.old_deleted ∧
    (confirm_and_cleanup env [p]).1 = [{ p with confirmed := true }] ∧
    (confirm_and_cleanup env [p]).2.1.confirmed = 1 ∧
    (confirm_and_cleanup env [p]).2.1.deleted = 0 := by
  refine ⟨?_, ?_, ?_, ?_, ?_⟩ <;>
    simp [confirmStep, confirm_and_cleanup, confirmStepCounts, ConfirmCounts.add,
      h1, h2]

/-- Witness for C10: a concrete pairing whose old reference is unfetchable
ends with `confirmed = true` and `old_deleted = false` and is counted. -/
theorem confirm_marks_confirmed_when_old_missing_witness :
    (confirmStep ⟨fun _ => none, fun _ => true, fun _ => true⟩
      ⟨"A1", "t", "/p", some "N1", "u", "P1", "PT", "u9", "T", false, false⟩).confirmed
        = true ∧
    (confirmStep ⟨fun _ => none, fun _ => true, fun _ => true⟩
      ⟨"A1", "t", "/p", some "N1", "u", "P1", "PT", "u9", "T", false, false⟩).old_deleted
        = false ∧
    (confirm_and_cleanup ⟨fun _ => none, fun _ => true, fun _ => true⟩
      [⟨"A1", "t", "/p", some "N1", "u", "P1", "PT", "u9", "T", false, false⟩]).2.1.confirmed
        = 1 := by
  have h := confirm_marks_confirmed_when_old_missing
    ⟨fun _ => none, fun _ => true, fun _ => true⟩
    ⟨"A1", "t", "/p", some "N1", "u", "P1", "PT", "u9", "T", false, false⟩ rfl rfl
  exact ⟨h.1, h.2.1, h.2.2.2.1⟩

/-! ## C1 — confirm deletes the old reference without any verification -/

theorem hasVerifyOp_append (a b : List COp) :
    hasVerifyOp (a ++ b) = (hasVerifyOp a || hasVerifyOp b) := by
  induction a with
  | nil => simp [hasVerifyOp]
  | cons o rest ih =>
    cases o <;> simp [hasVerifyOp, ih]

theorem confirmStepOps_no_verify (env : ConfirmEnv) (p : AttachmentPair) :
    hasVerifyOp (confirmStepOps env p) = false := by
  unfold confirmStepOps
  cases env.getItem p.old_key with
  | none => simp [hasVerifyOp]
  | some v => by_cases h : p.old_deleted <;> simp [hasVerifyOp, h]

/-- Concrete environment for the C1 counterexample: the old item is
fetchable, deletion succeeds, and verification of every new reference
fails. -/
def envC1 : ConfirmEnv :=
  ⟨fun k => if k = "A1" then some 1 else none, fun _ => true, fun _ => false⟩

def pairC1 : AttachmentPair :=
  ⟨"A1", "t", "/p", some "N1", "x-devonthink-item://u9", "P1", "PT", "u9", "T",
    false, false⟩

/-- Counterexample to C1 as stated: with verification of the new reference
failing everywhere (`envC1.verifyNew "N1" = false`), `confirm_and_cleanup`
still deletes the old reference `"A1"` and promotes the pairing to
`confirmed = true, old_deleted = true`; its trace contains no verification
call at all. -/
theorem confirm_deletes_old_without_verification_cex :
    hasVerifyOp (confirm_and_cleanup envC1 [pairC1]).2.2 = false ∧
    COp.deleteOld "A1" ∈ (confirm_and_cleanup envC1 [pairC1]).2.2 ∧
    envC1.deleteOk "A1" = true ∧
    envC1.verifyNew "N1" = false ∧
    (confirm_and_cleanup envC1 [pairC1]).1 =
      [{ pairC1 with old_deleted := true, confirmed := true }] := by
  decide

/-- C1 (amended): `confirm_and_cleanup` performs no verification of the new
reference at all; it deletes an old reference only for an unconfirmed,
not-yet-deleted pairing whose old item is still fetchable; and when that
deletion fails, the pairing is left untouched (`old_deleted = false`,
`confirmed = false`, i.e. still in the CREATED stage). -/
theorem confirm_and_cleanup_no_verification (env : ConfirmEnv)
    (pairs : List AttachmentPair) :
    hasVerifyOp (confirm_and_cleanup env pairs).2.2 = false ∧
    (confirm_and_cleanup env pairs).1 =
      pairs.map (fun p => if p.confirmed then p else confirmStep env p) ∧
    (∀ k, COp.deleteOld k ∈ (confirm_and_cleanup env pairs).2.2 →
      ∃ p ∈ pairs, p.old_key = k ∧ p.confirmed = false ∧ p.old_deleted = false ∧
        env.getItem k ≠ none) ∧
    (∀ p : AttachmentPair, env.getItem p.old_key ≠ none →
      env.deleteOk p.old_key = false → p.old_deleted = false →
      confirmStep env p = p) := by
  refine ⟨?_, ?_, ?_, ?_⟩
  · induction pairs with
    | nil => simp [confirm_and_cleanup, hasVerifyOp]
    | cons p rest ih =>
      simp only [confirm_and_cleanup]
      split
      · exact ih
      · simp [hasVerifyOp_append, confirmStepOps_no_verify, ih]
  · induction pairs with
    | nil => simp [confirm_and_cleanup]
    | cons p rest ih =>
      simp only [confirm_and_cleanup, List.map_cons]
      split <;> rename_i hc <;> simp [hc, ih]
  · induction pairs with
    | nil => intro k h; simp [confirm_and_cleanup] at h
    | cons p rest ih =>
      intro k h
      simp only [confirm_and_cleanup] at h
      by_cases hc : p.confirmed = true
      · rw [if_pos hc] at h
        rcases ih k h with ⟨q, hq, hrest⟩
        exact ⟨q, List.mem_cons_of_mem _ hq, hrest⟩
      · rw [if_neg hc] at h
        rcases List.mem_append.mp h with h | h
        · unfold confirmStepOps at h
          rcases List.mem_cons.mp h with h | h
          · exact absurd h (by simp)
          · split at h
            · rename_i hg
              split at h
              · rename_i hd
                have hk := List.mem_singleton.mp h
                have hk' : p.old_key = k := by
                  injection hk with h1; exact h1.symm
                refine ⟨p, List.mem_cons_self p rest, hk', ?_, ?_, ?_⟩
                · exact Bool.not_eq_true _ ▸ (by simpa using hc)
                · simpa using hd
                · rw [← hk']; simp [hg]
              · simp at h
            · simp at h
        · rcases ih k h with ⟨q, hq, hrest⟩
          exact ⟨q, List.mem_cons_of_mem _ hq, hrest⟩
  · intro p hg hd hod
    unfold confirmStep
    match hgi : env.getItem p.old_key with
    | none => exact absurd hgi hg
    | some v => simp [hod, hd]

/-- Witness for C1 (amended): a concrete pairing whose old item is fetchable
but whose deletion fails stays entirely unchanged. -/
theorem confirm_and_cleanup_no_verification_witness :
    hasVerifyOp (confirm_and_cleanup
      ⟨fun _ => some 1, fun _ => false, fun _ => true⟩ [pairC1]).2.2 = false ∧
    confirmStep ⟨fun _ => some 1, fun _ => false, fun _ => true⟩ pairC1 = pairC1 := by
  have h := confirm_and_cleanup_no_verification
    ⟨fun _ => some 1, fun _ => false, fun _ => true⟩ [pairC1]
  exact ⟨h.1, h.2.2.2 pairC1 (by simp) rfl rfl⟩

/-! ## C7 — resilient load with bounded backup fallback -/

theorem firstReadable_all_none {l : List (Option (List AttachmentPair))}
    (h : ∀ x ∈ l, x = none) : firstReadable l = [] := by
  induction l with
  | nil => rfl
  | cons x rest ih =>
    have hx := h x (List.mem_cons_self x rest)
    subst hx
    exact ih (fun y hy => h y (List.mem_cons_of_mem _ hy))

/-- C7: `load_state` returns the canonical file's pair list when it parses;
when the canonical file is missing or corrupt it consults only the 3 newest
backups — if all of those are unreadable it returns the empty initial state
(readable older backups notwithstanding), and when the newest backup is
readable it returns that backup's content. -/
theorem load_state_fallback (fs : StoreFS) :
    (∀ ps, fs.canonical = some (some ps) → load_state fs = ps) ∧
    (canonicalBad fs →
      ((∀ b ∈ (sortBackupsDesc fs.backups).take 3, b.2 = none) →
        load_state fs = []) ∧
      (∀ n ps rest, sortBackupsDesc fs.backups = (n, some ps) :: rest →
        load_state fs = ps)) := by
  constructor
  · intro ps h
    simp [load_state, h]
  · intro hbad
    have hload : load_state fs =
        firstReadable (((sortBackupsDesc fs.backups).take 3).map (fun b => b.2)) := by
      rcases hbad with h | h <;> simp [load_state, h]
    constructor
    · intro hall
      rw [hload]
      apply firstReadable_all_none
      intro x hx
      rcases List.mem_map.mp hx with ⟨b, hb, hbx⟩
      exact hbx ▸ hall b hb
    · intro n ps rest hsort
      rw [hload, hsort]
      rfl

/-- Witness for C7 at concrete filesystems: (a) corrupt canonical file and
three unreadable newest backups — the readable 4th backup is never tried and
the result is the fresh state; (b) a parseable canonical file wins; (c) with
the canonical file missing, the newest backup's content is returned. -/
theorem load_state_fallback_witness :
    load_state ⟨some none,
      [(0, some [pairC1]), (3, none), (2, none), (1, none)]⟩ = [] ∧
    load_state ⟨some (some [pairC1]), [(7, some [])]⟩ = [pairC1] ∧
    load_state ⟨none, [(2, some [pairC1]), (1, none)]⟩ = [pairC1] := by
  refine ⟨?_, ?_, ?_⟩
  · exact ((load_state_fallback _).2 (Or.inr rfl)).1 (by decide)
  · exact (load_state_fallback _).1 [pairC1] rfl
  · exact ((load_state_fallback _).2 (Or.inl rfl)).2 2 [pairC1] [(1, none)] (by decide)

/-! ## C3 — atomic save protocol with bounded backups -/

theorem save_state_protocol (fs : StoreFS) (pairs : List AttachmentPair) (ts : Nat) :
    (save_state fs pairs ts).1.canonical = some (some pairs) ∧
    (save_state fs pairs ts).1.backups.length ≤ BACKUP_COUNT ∧
    (∀ c, fs.canonical = some c → (∀ b ∈ fs.backups, b.1 < ts) →
      (save_state fs pairs ts).1.backups.head? = some (ts, c)) ∧
    (save_state fs pairs ts).2 =
      [SaveEv.writeTemp pairs] ++
        (match fs.canonical with
         | some _ => [SaveEv.copyBackup ts]
         | none => []) ++
        [SaveEv.renameTempOverCanonical, SaveEv.prune] := by
  refine ⟨?_, ?_, ?_, ?_⟩
  · cases h : fs.canonical <;> simp [save_state, h]
  · have hlen : ∀ bs : List (Nat × Option (List AttachmentPair)),
        (cleanup_backups bs).length ≤ BACKUP_COUNT := fun _ =>
      List.length_take_le _ _
    cases h : fs.canonical <;> simp only [save_state, h] <;> exact hlen _
  · intro c hc hlt
    simp only [save_state, hc]
    unfold cleanup_backups sortBackupsDesc
    rw [List.insertionSort]
    cases hs : fs.backups.insertionSort (fun a b => b.1 ≤ a.1) with
    | nil => simp [List.orderedInsert, BACKUP_COUNT]
    | cons b t =>
      have hb : b ∈ fs.backups := by
        have hperm := fs.backups.perm_insertionSort (fun a b => b.1 ≤ a.1)
        exact hperm.mem_iff.mp (hs ▸ List.mem_cons_self b t)
      have hble : b.1 ≤ ts := Nat.le_of_lt (hlt b hb)
      rw [List.orderedInsert]
      rw [if_pos (by simpa using hble)]
      simp [BACKUP_COUNT]
  · cases h : fs.canonical <;> simp [save_state, h]

/-- Witness for C3 at a concrete filesystem: saving over an existing
canonical file with five existing backups produces the new content at the
canonical path, the previous content as the newest backup, exactly
`BACKUP_COUNT` retained backups, and the write-temp / copy-backup / rename /
prune event order. -/
theorem save_state_protocol_witness :
    (save_state ⟨some (some []),
        [(5, some []), (4, some []), (3, some []), (2, some []), (1, some [])]⟩
      [pairC1] 6).1.canonical = some (some [pairC1]) ∧
    (save_state ⟨some (some []),
        [(5, some []), (4, some []), (3, some []), (2, some []), (1, some [])]⟩
      [pairC1] 6).1.backups.length ≤ BACKUP_COUNT ∧
    (save_state ⟨some (some []),
        [(5, some []), (4, some []), (3, some []), (2, some []), (1, some [])]⟩
      [pairC1] 6).1.backups.head? = some (6, some []) ∧
    (save_state ⟨some (some []),
        [(5, some []), (4, some []), (3, some []), (2, some []), (1, some [])]⟩
      [pairC1] 6).2 =
      [SaveEv.writeTemp [pairC1], SaveEv.copyBackup 6,
        SaveEv.renameTempOverCanonical, SaveEv.prune] := by
  have h := save_state_protocol ⟨some (some []),
    [(5, some []), (4, some []), (3, some []), (2, some []), (1, some [])]⟩
    [pairC1] 6
  exact ⟨h.1, h.2.1, h.2.2.1 (some []) rfl (by decide), h.2.2.2⟩

/-! ## C8 — throttle, retry-after, bounded exponential backoff, attempt ceiling -/

/-- A scripted outcome carrying no `Backoff` and no `Retry-After` header. -/
def noHeaders : ReqOutcome → Bool
  | ReqOutcome.exc => true
  | ReqOutcome.resp _ bo ra => bo.isNone && ra.isNone

theorem safeRequestAddNewGo_sleeps_bounded
    {script : List ReqOutcome} {d : Nat} (hd : d ≤ 60)
    (hh : ∀ o ∈ script, noHeaders o = true) :
    ∀ x ∈ (safeRequestAddNewGo script d).1, x ≤ 60 := by
  induction script generalizing d with
  | nil => intro x hx; simp [safeRequestAddNewGo] at hx
  | cons o rest ih =>
    intro x hx
    have hho := hh o (List.mem_cons_self o rest)
    have hhrest : ∀ o' ∈ rest, noHeaders o' = true :=
      fun o' h' => hh o' (List.mem_cons_of_mem _ h')
    match o with
    | ReqOutcome.exc =>
      simp only [safeRequestAddNewGo] at hx
      rcases List.mem_cons.mp hx with h | h
      · exact h ▸ hd
      · exact ih hd hhrest x h
    | ReqOutcome.resp st bo ra =>
      have hbo : bo = none := by
        cases bo
        · rfl
        · simp [noHeaders] at hho
      have hra : ra = none := by
        cases ra
        · rfl
        · simp [noHeaders] at hho
      subst hbo; subst hra
      by_cases hst : (st = 429 || st = 503) = true
      · simp only [safeRequestAddNewGo, hst, if_true] at hx
        simp only [List.nil_append] at hx
        rcases List.mem_cons.mp hx with h | h
        · exact h ▸ hd
        · exact ih (le_trans (Nat.min_le_right _ _) (le_refl 60)) hhrest x h
      · simp only [safeRequestAddNewGo, hst] at hx
        simp at hx

theorem safeRequestAddNewGo_none_iff (script : List ReqOutcome) (d : Nat) :
    (safeRequestAddNewGo script d).2 = none ↔
      ∀ o ∈ script, retriable o = true := by
  induction script generalizing d with
  | nil => simp [safeRequestAddNewGo]
  | cons o rest ih =>
    match o with
    | ReqOutcome.exc =>
      simp only [safeRequestAddNewGo]
      constructor
      · intro h
        intro o' ho'
        rcases List.mem_cons.mp ho' with h' | h'
        · subst h'; rfl
        · exact ((ih d).mp h) o' h'
      · intro h
        exact (ih d).mpr (fun o' h' => h o' (List.mem_cons_of_mem _ h'))
    | ReqOutcome.resp st bo ra =>
      by_cases hst : (st = 429 || st = 503) = true
      · cases ra with
        | some t =>
          simp only [safeRequestAddNewGo, hst, if_true]
          constructor
          · intro h o' ho'
            rcases List.mem_cons.mp ho' with h' | h'
            · subst h'; simpa [retriable] using hst
            · exact ((ih d).mp h) o' h'
          · intro h
            exact (ih d).mpr (fun o' h' => h o' (List.mem_cons_of_mem _ h'))
        | none =>
          simp only [safeRequestAddNewGo, hst, if_true]
          constructor
          · intro h o' ho'
            rcases List.mem_cons.mp ho' with h' | h'
            · subst h'; simpa [retriable] using hst
            · exact ((ih (min (d * 2) 60)).mp h) o' h'
          · intro h
            exact (ih (min (d * 2) 60)).mpr
              (fun o' h' => h o' (List.mem_cons_of_mem _ h'))
      · simp only [safeRequestAddNewGo, hst]
        constructor
        · intro h
          cases bo <;> simp at h
        · intro h
          have := h (ReqOutcome.resp st bo ra) (List.mem_cons_self _ _)
          simp [retriable, hst] at this

/-- C8: (i) the safe-API client sleeps the minimum inter-call interval
immediately before every request it issues; (ii) the add-new client honours a
server-supplied `Retry-After` delay on a 429 before retrying; (iii) with no
server-directed delays, every sleep of the add-new retry loop stays below the
60-second exponential-backoff cap; (iv) the add-new client returns a response
unless all of its (at most 5) attempts hit an exception or a rate-limit
status, in which case — and only in which case — it returns the terminal
failure `none`. -/
theorem request_retry_policy :
    (∀ script : Nat → SOutcome, throttled (safeRequestSafe script).1 none = true) ∧
    (∀ t : Nat, ∀ rest : List ReqOutcome,
      safeRequestAddNew (ReqOutcome.resp 429 none (some t) ::
        ReqOutcome.resp 200 none none :: rest) = ([t], some 200)) ∧
    (∀ script : List ReqOutcome, (∀ o ∈ script, noHeaders o = true) →
      ∀ x ∈ (safeRequestAddNew script).1, x ≤ 60) ∧
    (∀ script : List ReqOutcome,
      (safeRequestAddNew script).2 = none ↔
        ∀ o ∈ script.take 5, retriable o = true) := by
  refine ⟨?_, ?_, ?_, ?_⟩
  · intro script
    rcases h0 : script 0 with _ | st0 <;> rcases h1 : script 1 with _ | st1 <;>
      rcases h2 : script 2 with _ | st2 <;>
      simp [safeRequestSafe, safeRequestSafeGo, throttled, MAX_RETRIES,
        RATE_LIMIT_DELAY, h0, h1, h2]
  · intro t rest
    simp [safeRequestAddNew, safeRequestAddNewGo, RATE_LIMIT_DELAY, List.take]
  · intro script hh
    exact safeRequestAddNewGo_sleeps_bounded (by simp [RATE_LIMIT_DELAY])
      (fun o ho => hh o (List.mem_of_mem_take ho))
  · intro script
    exact safeRequestAddNewGo_none_iff (script.take 5) RATE_LIMIT_DELAY

/-- Witness for C8 at concrete scripts: a permanently failing connection is
throttled and gives up after the attempt ceiling; `Retry-After: 7` is slept
before the retry; five rate-limited responses sleep the capped exponential
backoff sequence and end in terminal failure. -/
theorem request_retry_policy_witness :
    throttled (safeRequestSafe (fun _ => SOutcome.exc)).1 none = true ∧
    safeRequestAddNew [ReqOutcome.resp 429 none (some 7),
      ReqOutcome.resp 200 none none] = ([7], some 200) ∧
    (∀ x ∈ (safeRequestAddNew
      (List.replicate 6 (ReqOutcome.resp 429 none none))).1, x ≤ 60) ∧
    ((safeRequestAddNew (List.replicate 6 (ReqOutcome.resp 429 none none))).2
        = none ↔
      ∀ o ∈ (List.replicate 6 (ReqOutcome.resp 429 none none)).take 5,
        retriable o = true) := by
  refine ⟨request_retry_policy.1 (fun _ => SOutcome.exc),
    request_retry_policy.2.1 7 [],
    request_retry_policy.2.2.1 _ (by decide),
    request_retry_policy.2.2.2 _⟩

/-! ## C6 — search-term derivation and first-hit querying -/

theorem firstHit_none_iff (oracle : String → String) (l : List String) :
    firstHit oracle l = none ↔ ∀ t ∈ l, oracle t = "" := by
  induction l with
  | nil => simp [firstHit]
  | cons t ts ih =>
    by_cases h : oracle t = ""
    · simp [firstHit, h, ih]
    · simp [firstHit, h]

theorem firstHit_some (oracle : String → String) :
    ∀ {l : List String} {u : String}, firstHit oracle l = some u →
      ∃ pre t post, l = pre ++ t :: post ∧ (∀ t' ∈ pre, oracle t' = "") ∧
        oracle t = u ∧ u ≠ "" := by
  intro l
  induction l with
  | nil => intro u h; simp [firstHit] at h
  | cons t ts ih =>
    intro u h
    by_cases ht : oracle t = ""
    · simp [firstHit, ht] at h
      rcases ih h with ⟨pre, t', post, hl, hpre, ho, hu⟩
      refine ⟨t :: pre, t', post, by rw [hl]; rfl, ?_, ho, hu⟩
      intro x hx
      rcases List.mem_cons.mp hx with hx | hx
      · exact hx ▸ ht
      · exact hpre x hx
    · have h' : oracle t = u := by
        simp only [firstHit] at h
        rw [if_pos ht] at h
        exact Option.some.inj h
      exact ⟨[], t, ts, rfl, by simp, h', fun he => ht (he ▸ h')⟩

/-- Counterexample to C6 as stated: the derived term list is not
deduplicated — for the title `"Johnson Analysis"` the leading author term
`"Johnson"` is derived again as a capitalized word, so the list contains it
twice. -/
theorem search_terms_not_deduplicated_cex :
    extract_search_terms "Johnson Analysis" = ["Johnson", "Johnson", "Analysis"] ∧
    (extract_search_terms "Johnson Analysis").count "Johnson" = 2 := by
  decide

/-- C6 (amended): `_extract_search_terms` derives at most 4 terms (leading
author match, then up to 3 capitalized words of length > 4 outside the
stop-word set, with a fallback to the first two whitespace-separated words of
length > 3 — without deduplication), and `search_for_item` returns the first
non-empty oracle answer over those terms in order, `none` exactly when every
derived term comes back empty. -/
theorem search_terms_first_hit (oracle : String → String) (title : String) :
    (extract_search_terms title).length ≤ 4 ∧
    (search_for_item oracle title = none ↔
      ∀ t ∈ extract_search_terms title, oracle t = "") ∧
    (∀ u, search_for_item oracle title = some u →
      ∃ pre t post, extract_search_terms title = pre ++ t :: post ∧
        (∀ t' ∈ pre, oracle t' = "") ∧ oracle t = u ∧ u ≠ "") := by
  refine ⟨List.length_take_le _ _, firstHit_none_iff oracle _, ?_⟩
  intro u h
  exact firstHit_some oracle h

/-- Oracle used by the C6 witness: knows `"Smith"` and nothing else. -/
def oracleSmith : String → String := fun t => if t = "Smith" then "U9" else ""

/-- Witness for C6 at a concrete title: `"Smith - Report.pdf"` strips its
extension, derives `["Smith", "Smith"]` and the search returns the oracle's
answer for the first term. -/
theorem search_terms_first_hit_witness :
    (extract_search_terms "Smith - Report.pdf").length ≤ 4 ∧
    ∃ pre t post, extract_search_terms "Smith - Report.pdf" = pre ++ t :: post ∧
      (∀ t' ∈ pre, oracleSmith t' = "") ∧ oracleSmith t = "U9" ∧ "U9" ≠ "" := by
  refine ⟨(search_terms_first_hit oracleSmith "Smith - Report.pdf").1, ?_⟩
  exact (search_terms_first_hit oracleSmith "Smith - Report.pdf").2.2 "U9" (by decide)

/-! ## C2 — pairings are persisted once per run, not per item -/

/-- Environment for the C2 counterexample: two distinct linked-file
candidates, both matched by the oracle, both created successfully; the old
items are not fetchable so no deletions interleave. -/
def envC2 : AddEnv :=
  { items := [⟨"K1", 1, "Alpha Study", "/a.pdf", "P1", "linked_file"⟩,
              ⟨"K2", 2, "Beta Survey", "/b.pdf", "P2", "linked_file"⟩],
    oracle := fun t => if t = "Alpha Study" then some "u1"
                       else if t = "Beta Survey" then some "u2" else none,
    createKey := fun i => if i = 0 then some "N1"
                          else if i = 1 then some "N2" else none,
    getItem := fun k => if k = "P1" then some ("PT1", 3)
                        else if k = "P2" then some ("PT2", 4) else none,
    deleteOk := fun _ => false,
    now := "T" }

/-- Counterexample to C2 as stated: in a run that creates 2 pairings, the
persisted store immediately after the 1st creation is still the initial
(empty) store — it does not contain the first created pairing, because the
run saves only once, after the whole batch. -/
theorem pairing_not_persisted_per_item_cex :
    (add_uuid_attachments envC2 [] 10).2.1.added = 2 ∧
    countAppends (add_uuid_attachments envC2 [] 10).2.2 = 2 ∧
    persistedIn [] (prefixThroughAppend 1 (add_uuid_attachments envC2 [] 10).2.2)
      = [] := by
  decide

theorem savesOf_append (a b : List AEv) :
    savesOf (a ++ b) = savesOf a ++ savesOf b := by
  induction a with
  | nil => simp [savesOf]
  | cons e rest ih => cases e <;> simp [savesOf, ih]

theorem processResults_no_save (env : AddEnv) (cmap : List (String × Item × String)) :
    ∀ rs, savesOf (processResults env cmap rs).2.2.2 = [] := by
  intro rs
  induction rs with
  | nil => simp [processResults, savesOf]
  | cons r rest ih =>
    rcases r with ⟨att, nk⟩
    simp only [processResults]
    rcases h : lookupLast cmap att.title with _ | ⟨cand, uuid⟩ <;>
      rcases hk : nk with _ | newKey <;> simp only []
    · exact ih
    · exact ih
    · exact ih
    · by_cases hne : newKey ≠ ""
      · rw [if_pos hne]
        simp only [savesOf_append]
        by_cases hf : (env.getItem cand.key).isSome
        · simp [hf, savesOf, ih]
        · simp [Bool.not_eq_true _ ▸ hf, savesOf, ih]
      · rw [if_neg hne]
        exact ih

theorem processResults_added_length (env : AddEnv)
    (cmap : List (String × Item × String)) :
    ∀ rs, (processResults env cmap rs).1.length = (processResults env cmap rs).2.1 := by
  intro rs
  induction rs with
  | nil => simp [processResults]
  | cons r rest ih =>
    rcases r with ⟨att, nk⟩
    simp only [processResults]
    rcases h : lookupLast cmap att.title with _ | ⟨cand, uuid⟩ <;>
      rcases hk : nk with _ | newKey <;> simp only []
    · exact ih
    · exact ih
    · exact ih
    · by_cases hne : newKey ≠ ""
      · rw [if_pos hne]
        simp [ih]
      · rw [if_neg hne]
        exact ih

/-- C2 (amended): `add_uuid_attachments` appends created pairings in memory
one at a time, but persists exactly once, at the very end of the run: the
trace contains a single `save` event, it is the last event, and its payload
is the prior store followed by one new pairing per counted creation.  (A
crash after the k-th creation but before that final save therefore loses all
k pairings of the run, while the new references already exist remotely.) -/
theorem add_persists_once_at_end (env : AddEnv) (store : List AttachmentPair)
    (maxItems : Nat) :
    savesOf (add_uuid_attachments env store maxItems).2.2 =
      [(add_uuid_attachments env store maxItems).1] ∧
    (add_uuid_attachments env store maxItems).2.2.getLast? =
      some (AEv.save (add_uuid_attachments env store maxItems).1) ∧
    ∃ news, (add_uuid_attachments env store maxItems).1 = store ++ news ∧
      news.length = (add_uuid_attachments env store maxItems).2.1.added := by
  refine ⟨?_, ?_, ?_⟩
  · show savesOf (_ ++ [AEv.save _]) = _
    rw [savesOf_append, processResults_no_save]
    rfl
  · exact List.getLast?_concat _
  · exact ⟨_, rfl, processResults_added_length env _ _⟩

/-! ## C5 — discovery exclusion, and duplicate old_ids via shared titles -/

/-- Environment for the C5 counterexample: two distinct candidates that
share the title `"Doc"`.  `candidate_map` is keyed by title, so the second
assignment overwrites the first. -/
def envC5 : AddEnv :=
  { items := [⟨"K1", 1, "Doc", "/1.pdf", "P1", "linked_file"⟩,
              ⟨"K2", 2, "Doc", "/2.pdf", "P2", "linked_file"⟩],
    oracle := fun t => if t = "Doc" then some "u9" else none,
    createKey := fun i => if i = 0 then some "N1"
                          else if i = 1 then some "N2" else none,
    getItem := fun _ => none,
    deleteOk := fun _ => false,
    now := "T" }

/-- Counterexample to C5 as stated: discovery returns two candidates with
distinct keys `K1, K2`, yet the resulting store holds two active
(unconfirmed) pairings that both carry `old_key = "K2"` — the no-duplicate
invariant fails. -/
theorem duplicate_old_id_pairings_cex :
    ((addUuidCandidates [] envC5.items).map (fun it => it.key)) = ["K1", "K2"] ∧
    ((add_uuid_attachments envC5 [] 10).1.map (fun p => p.old_key)) = ["K2", "K2"] ∧
    ((add_uuid_attachments envC5 [] 10).1.map (fun p => p.confirmed)) =
      [false, false] := by
  decide

theorem addUuidCandidates_excludes_store (store : List AttachmentPair)
    (items : List Item) :
    ∀ it ∈ addUuidCandidates store items, ∀ p ∈ store, p.old_key ≠ it.key := by
  intro it hit p hp
  have hcond := List.of_mem_filter hit
  simp only [Bool.and_eq_true, List.all_eq_true] at hcond
  have h4 := hcond.2 p hp
  simpa using h4

theorem searchPhase_cmap_mem (oracle : String → Option String) :
    ∀ cands, ∀ e ∈ (searchPhase oracle cands).2.1,
      e.2.1 ∈ cands ∧ e.2.1.title = e.1 := by
  intro cands
  induction cands with
  | nil => intro e he; simp [searchPhase] at he
  | cons c rest ih =>
    intro e he
    simp only [searchPhase] at he
    rcases h : oracle c.title with _ | u <;> rw [h] at he
    · rcases ih e he with ⟨h1, h2⟩
      exact ⟨List.mem_cons_of_mem _ h1, h2⟩
    · rcases List.mem_cons.mp he with he | he
      · subst he; exact ⟨List.mem_cons_self _ _, rfl⟩
      · rcases ih e he with ⟨h1, h2⟩
        exact ⟨List.mem_cons_of_mem _ h1, h2⟩

theorem searchPhase_batch_titles (oracle : String → Option String) :
    ∀ cands, (searchPhase oracle cands).1.map (fun b => b.title) =
      (searchPhase oracle cands).2.1.map (fun e => e.1) := by
  intro cands
  induction cands with
  | nil => simp [searchPhase]
  | cons c rest ih =>
    simp only [searchPhase]
    rcases h : oracle c.title with _ | u
    · exact ih
    · simp [ih]

theorem searchPhase_titles_sublist (oracle : String → Option String) :
    ∀ cands, ((searchPhase oracle cands).2.1.map (fun e => e.1)).Sublist
      (cands.map (fun c => c.title)) := by
  intro cands
  induction cands with
  | nil => simp [searchPhase]
  | cons c rest ih =>
    simp only [searchPhase, List.map_cons]
    rcases h : oracle c.title with _ | u
    · exact List.Sublist.cons _ ih
    · exact List.Sublist.cons₂ _ ih

theorem lookupLast_mem {α : Type} {m : List (String × α)} {k : String} {v : α}
    (h : lookupLast m k = some v) : (k, v) ∈ m := by
  unfold lookupLast at h
  rcases Option.map_eq_some'.mp h with ⟨e, he, hev⟩
  have hmem := List.mem_of_find?_eq_some he
  have hpred := List.find?_some he
  have hk : e.1 = k := by simpa using hpred
  have : e = (k, v) := by
    rcases e with ⟨e1, e2⟩
    simp only at hk hev
    rw [hk, hev]
  exact this ▸ List.mem_reverse.mp hmem

theorem attachKeys_fst (createKey : Nat → Option String) :
    ∀ (i : Nat) (batch : List BatchEntry),
      (attachKeys createKey i batch).map (fun r => r.1) = batch := by
  intro i batch
  induction batch generalizing i with
  | nil => simp [attachKeys]
  | cons b bs ih => simp [attachKeys, ih]

theorem processResults_oldkey_source (env : AddEnv)
    (cmap : List (String × Item × String)) :
    ∀ rs, ∀ k ∈ (processResults env cmap rs).1.map (fun p => p.old_key),
      ∃ att : BatchEntry, ∃ nk : Option String, ∃ cu : Item × String,
        (att, nk) ∈ rs ∧ lookupLast cmap att.title = some cu ∧ k = cu.1.key := by
  intro rs
  induction rs with
  | nil => intro k h; simp [processResults] at h
  | cons r rest ih =>
    intro k h
    rcases r with ⟨att, nk⟩
    simp only [processResults] at h
    rcases nk with _ | newKey <;>
      rcases hl : lookupLast cmap att.title with _ | ⟨cand, uuid⟩ <;>
        rw [hl] at h <;> (try dsimp only at h)
    · rcases ih k h with ⟨a, n, cu, hm, h1, h2⟩
      exact ⟨a, n, cu, List.mem_cons_of_mem _ hm, h1, h2⟩
    · rcases ih k h with ⟨a, n, cu, hm, h1, h2⟩
      exact ⟨a, n, cu, List.mem_cons_of_mem _ hm, h1, h2⟩
    · rcases ih k h with ⟨a, n, cu, hm, h1, h2⟩
      exact ⟨a, n, cu, List.mem_cons_of_mem _ hm, h1, h2⟩
    · by_cases hne : newKey ≠ ""
      · rw [if_pos hne] at h
        simp only [List.map_cons, List.mem_cons] at h
        rcases h with h | h
        · exact ⟨att, some newKey, (cand, uuid),
            List.mem_cons_self _ _, hl, by simpa using h⟩
        · rcases ih k (by simpa using h) with ⟨a, n, cu, hm, h1, h2⟩
          exact ⟨a, n, cu, List.mem_cons_of_mem _ hm, h1, h2⟩
      · rw [if_neg hne] at h
        rcases ih k h with ⟨a, n, cu, hm, h1, h2⟩
        exact ⟨a, n, cu, List.mem_cons_of_mem _ hm, h1, h2⟩

theorem processResults_oldkeys_nodup (env : AddEnv)
    (cmap : List (String × Item × String))
    (hinj : ∀ t₁ t₂ : String, ∀ cu₁ cu₂ : Item × String,
      lookupLast cmap t₁ = some cu₁ → lookupLast cmap t₂ = some cu₂ →
      cu₁.1.key = cu₂.1.key → t₁ = t₂) :
    ∀ rs, (rs.map (fun r => r.1.title)).Nodup →
      ((processResults env cmap rs).1.map (fun p => p.old_key)).Nodup := by
  intro rs
  induction rs with
  | nil => intro _; simp [processResults]
  | cons r rest ih =>
    intro hnd
    rcases r with ⟨att, nk⟩
    simp only [List.map_cons] at hnd
    have hnd2 := List.nodup_cons.mp hnd
    simp only [processResults]
    rcases hl : lookupLast cmap att.title with _ | ⟨cand, uuid⟩ <;>
      rcases hk : nk with _ | newKey <;> simp only []
    · exact ih hnd2.2
    · exact ih hnd2.2
    · exact ih hnd2.2
    · by_cases hne : newKey ≠ ""
      · rw [if_pos hne]
        rw [List.map_cons, List.nodup_cons]
        refine ⟨?_, ih hnd2.2⟩
        intro hmem
        rcases processResults_oldkey_source env cmap rest _ hmem with
          ⟨att', nk', cu', hr, hl', hkeq⟩
        have hkey : cand.key = cu'.1.key := by simpa using hkeq
        have hteq : att.title = att'.title :=
          hinj att.title att'.title (cand, uuid) cu' hl hl' hkey
        have : att'.title ∈ rest.map (fun r => r.1.title) := by
          have := List.mem_map_of_mem (fun r : BatchEntry × Option String =>
            r.1.title) hr
          simpa using this
        exact hnd2.1 (hteq ▸ this)
      · rw [if_neg hne]
        exact ih hnd2.2

/-- C5 (amended): (i) discovery never returns a candidate whose `old_id`
already appears in a pairing in the store (rolled-back pairings are removed
from the store rather than marked, so these are exactly the active ones);
(ii) when the discovered batch has pairwise-distinct keys and
pairwise-distinct titles, no two pairings in the resulting store share an
`old_id`.  Without the distinct-title hypothesis the invariant fails, since
`candidate_map` is keyed by title (see the counterexample). -/
theorem discovery_excludes_active_old_ids (env : AddEnv)
    (store : List AttachmentPair) (maxItems : Nat) :
    (∀ it ∈ (addUuidCandidates store env.items).take maxItems,
      ∀ p ∈ store, p.old_key ≠ it.key) ∧
    ((store.map (fun p => p.old_key)).Nodup →
      ((((addUuidCandidates store env.items).take maxItems).map
        (fun it => it.key)).Nodup) →
      ((((addUuidCandidates store env.items).take maxItems).map
        (fun it => it.title)).Nodup) →
      ((add_uuid_attachments env store maxItems).1.map
        (fun p => p.old_key)).Nodup) := by
  constructor
  · intro it hit
    exact addUuidCandidates_excludes_store store env.items it
      (List.mem_of_mem_take hit)
  · intro hstore hkeys htitles
    set cands := (addUuidCandidates store env.items).take maxItems with hcands
    set cmap := (searchPhase env.oracle cands).2.1 with hcmap
    have hinj : ∀ t₁ t₂ : String, ∀ cu₁ cu₂ : Item × String,
        lookupLast cmap t₁ = some cu₁ → lookupLast cmap t₂ = some cu₂ →
        cu₁.1.key = cu₂.1.key → t₁ = t₂ := by
      intro t₁ t₂ cu₁ cu₂ h₁ h₂ hkeq
      have hm₁ := searchPhase_cmap_mem env.oracle cands _ (lookupLast_mem h₁)
      have hm₂ := searchPhase_cmap_mem env.oracle cands _ (lookupLast_mem h₂)
      simp only at hm₁ hm₂
      have : cu₁.1 = cu₂.1 :=
        List.inj_on_of_nodup_map hkeys hm₁.1 hm₂.1 hkeq
      rw [← hm₁.2, ← hm₂.2, this]
    have hrs : ((attachKeys env.createKey 0 (searchPhase env.oracle cands).1).map
        (fun r => r.1.title)).Nodup := by
      have hmm : (attachKeys env.createKey 0 (searchPhase env.oracle cands).1).map
          (fun r => r.1.title) =
          ((attachKeys env.createKey 0 (searchPhase env.oracle cands).1).map
            (fun r => r.1)).map (fun b => b.title) := by
        rw [List.map_map]; rfl
      rw [hmm, attachKeys_fst, searchPhase_batch_titles]
      exact List.Nodup.sublist (searchPhase_titles_sublist env.oracle cands) htitles
    have hnews := processResults_oldkeys_nodup env cmap hinj _ hrs
    have hdisj : (store.map (fun p => p.old_key)).Disjoint
        (((processResults env cmap
          (attachKeys env.createKey 0 (searchPhase env.oracle cands).1)).1).map
          (fun p => p.old_key)) := by
      intro k hk1 hk2
      rcases processResults_oldkey_source env cmap _ k hk2 with
        ⟨att, nk, cu, _, hl, hkey⟩
      have hcand := (searchPhase_cmap_mem env.oracle cands _ (lookupLast_mem hl)).1
      rcases List.mem_map.mp hk1 with ⟨p, hp, hpk⟩
      have := addUuidCandidates_excludes_store store env.items cu.1
        (List.mem_of_mem_take hcand) p hp
      exact this (hpk.trans hkey)
    show ((store ++ _).map (fun p => p.old_key)).Nodup
    rw [List.map_append]
    exact hstore.append hnews hdisj

/-- Witness for C5 at a concrete input: with distinct keys and titles (the
`envC2` batch), the resulting store has pairwise-distinct `old_key`s, and no
discovered candidate collides with the (empty) store. -/
theorem discovery_excludes_active_old_ids_witness :
    ((add_uuid_attachments envC2 [] 10).1.map (fun p => p.old_key)).Nodup ∧
    (∀ it ∈ (addUuidCandidates [] envC2.items).take 10,
      ∀ p ∈ ([] : List AttachmentPair), p.old_key ≠ it.key) := by
  have h := discovery_excludes_active_old_ids envC2 [] 10
  exact ⟨h.2 (by decide) (by decide) (by decide), h.1⟩

end Devonzot
